import Mathlib

/-!
ofxMSATFUtils: dimension mapping and top-k selection.

A shallow embedding of the functions of `src/ofxMSATFUtils.cpp`
(`tensor_to_pixel_dims`, `get_imagedims_for_tensorshape`, `get_topk`,
`read_labels_file`, `log_error`, `load_graph_def`, `create_session_with_graph`),
with their properties.

Conventions of the embedding:

* a tensor is represented by its shape, the list of its `int64` axis sizes;
  its rank is the length of that list;
* a `std::string` is the list of its `char` values as C++ promotes them to
  `int` (so `'0'` is `48` and the filler `'z'` is `122`);
* the entries of the `ofVec3f dim_indices` are small whole numbers (a `char`
  minus `'0'`, or one of the constants `0`, `1`, `99`), which `float`
  represents exactly, so they are carried as `Int`;
* reading `t.dim_size(d)` with `d` outside `0 ≤ d < rank` and calling `top()`
  on an empty `std::priority_queue` are undefined behaviour; the embedding
  reports them as a `Fault`;
* scores are elements of a type with a decidable `<`, decidable equality and a
  zero; the properties that depend on the order are proved for linearly
  ordered scores (the `float` values other than NaN, with `-0.0` and `0.0`
  identified), and `FloatScore` adds NaN, on which every comparison is false;
  positions in a vector are natural numbers, which assumes fewer than `2^31`
  scores;
* a label file is what opening it gives: nothing, or the lines that
  `std::getline` yields; the calls into the runtime are the fields of a
  `Runtime`, and a thrown `std::runtime_error` is the `error` case of `Except`.
-/

namespace msa.tf

/-! ## Faults -/

/-- Ways in which a call can fail to produce a result.  `invalidArgument`
stands for the runtime status of that name (no function embedded here
constructs it), `undefinedAccess` for an out-of-range read (undefined
behaviour in C++), `lengthError` for a `resize` to a negative count. -/
inductive Fault where
  | invalidArgument
  | undefinedAccess
  | lengthError
  deriving DecidableEq, Repr

deriving instance DecidableEq for Except

/-! ## tensor_to_pixel_dims -/

/-- The C++ conversion `(int)x` of an `int64` value `x`: reduction modulo
`2^32` into the signed 32-bit range. -/
def toInt32 (x : Int) : Int := (x + 2147483648) % 4294967296 - 2147483648

/-- The call `t.dim_size(d)`: the size of axis `d` of a tensor of the given
shape.  Outside `0 ≤ d < rank` the read is out of range. -/
def dim_size (shape : List Int) (d : Int) : Except Fault Int :=
  if 0 ≤ d ∧ d < (shape.length : Int) then
    .ok (shape.getD d.toNat 0)
  else
    .error Fault.undefinedAccess

/-- The loop `while(chmap.length()<3) chmap += "z";`. -/
def padChmap (chmap : List Int) : List Int :=
  chmap ++ List.replicate (3 - chmap.length) 122

/-- The initial `dim_indices(chmap[0]-'0', chmap[1]-'0', chmap[2]-'0')`,
read from the padded role string. -/
def decodeIndices (chmap : List Int) : Int × Int × Int :=
  (chmap.getD 0 0 - 48, chmap.getD 1 0 - 48, chmap.getD 2 0 - 48)

/-- The block `if(rank < chmap.length()) { ... }` that adjusts the indices
for tensors of rank 1 and 2.  `len` is the length of the padded string. -/
def adjustIndices (rank len : Nat) (d : Int × Int × Int) : Int × Int × Int :=
  if rank < len then
    if rank = 1 then (0, 99, 99)
    else if rank = 2 then
      if d.2.1 > d.1 then (0, 1, 99) else (1, 0, 99)
    else d
  else d

/-- One entry of `image_dims`:
`rank > dim_indices[i] ? (int)t.dim_size(dim_indices[i]) : 1`. -/
def axisSize (shape : List Int) (d : Int) : Except Fault Int :=
  if (shape.length : Int) > d then
    (dim_size shape d).map toInt32
  else
    .ok 1

/-- The function `tensor_to_pixel_dims(t, chmap)`: the tensor `t` is given
by its shape.  The result is the vector `{width, height, channels}`. -/
def tensor_to_pixel_dims (shape : List Int) (chmap : List Int) :
    Except Fault (List Int) :=
  let rank := shape.length
  let chmap := padChmap chmap
  let dim_indices := adjustIndices rank chmap.length (decodeIndices chmap)
  do
    let w ← axisSize shape dim_indices.1
    let h ← axisSize shape dim_indices.2.1
    let c ← axisSize shape dim_indices.2.2
    pure [w, h, c]

/-- The `char` values of an ASCII string, as `tensor_to_pixel_dims` sees
them. -/
def ofAscii (s : String) : List Int := s.toList.map (fun c => (c.toNat : Int))

/-- The size a role resolves to when its axis index is taken literally and no
conversion is applied: `shape[d]` if `d < rank`, else `1`. -/
def literalSize (shape : List Int) (d : Nat) : Int :=
  if d < shape.length then shape.getD d 0 else 1

/-- Every axis size lies in the signed 32-bit range. -/
def InInt32 (shape : List Int) : Prop :=
  ∀ x ∈ shape, -2147483648 ≤ x ∧ x < 2147483648

/-- Every character of the string has a code of at least `'0'`. -/
def AtLeastZeroChar (chmap : List Int) : Prop := ∀ c ∈ chmap, 48 ≤ c

/-- Every character of the string is one of `'0'`..`'9'`. -/
def AllDigits (chmap : List Int) : Prop := ∀ c ∈ chmap, 48 ≤ c ∧ c ≤ 57

/-- The size read for an axis index that is not negative. -/
def readSize (shape : List Int) (d : Int) : Int :=
  if d < (shape.length : Int) then toInt32 (shape.getD d.toNat 0) else 1

/-- The adjusted indices of a call. -/
def indicesOf (shape : List Int) (chmap : List Int) : Int × Int × Int :=
  adjustIndices shape.length (padChmap chmap).length (decodeIndices (padChmap chmap))

/-! ## get_topk -/

/-- A `float` score: NaN, or an ordinary value.  Only the order of the ordinary
values matters here, so they are carried as integers. -/
inductive FloatScore where
  | nan
  | num (x : Int)
  deriving DecidableEq, Repr

/-- The comparison `a < b` of two `float` values: false whenever one of them is
NaN. -/
def FloatScore.lt : FloatScore → FloatScore → Bool
  | .num x, .num y => decide (x < y)
  | _, _ => false

/-- The comparison `a <= b` of two `float` values: false whenever one of them is
NaN. -/
def FloatScore.le : FloatScore → FloatScore → Bool
  | .num x, .num y => decide (x ≤ y)
  | _, _ => false

instance : LT FloatScore := ⟨fun a b => FloatScore.lt a b = true⟩

instance : LE FloatScore := ⟨fun a b => FloatScore.le a b = true⟩

instance : DecidableRel (fun a b : FloatScore => a < b) :=
  fun a b => inferInstanceAs (Decidable (FloatScore.lt a b = true))

instance : DecidableRel (fun a b : FloatScore => a ≤ b) :=
  fun a b => inferInstanceAs (Decidable (FloatScore.le a b = true))

instance : Zero FloatScore := ⟨.num 0⟩

section TopK

variable {α : Type} [LT α] [DecidableRel (fun a b : α => a < b)] [DecidableEq α]

/-- The comparison `std::less<std::pair<float, int>>` used by the priority
queue: lexicographic, first by score, then by index. -/
def pairLess (a b : α × Nat) : Bool :=
  decide (a.1 < b.1) || (!decide (b.1 < a.1) && decide (a.2 < b.2))

/-- The operation `q.push(x)` of `std::priority_queue`.  The queue is modelled by
the list of its elements; their arrangement is immaterial, because `top`
searches the whole list. -/
def push (q : List (α × Nat)) (x : α × Nat) : List (α × Nat) := x :: q

/-- The operation `q.top()` of `std::priority_queue`: an element that no other
element exceeds under `pairLess`; `none` on the empty queue, where the C++
call is undefined.  The search keeps the best element so far and replaces it by
a later pushed one that compares above it.  For totally ordered scores the
result is the unique maximum, whatever the layout of the heap.  With a NaN among
the scores `pairLess` is no longer an ordering and the root of the real heap
depends on its layout; on a queue of two elements both the heap (one
comparison of the second element with its parent) and this search give the
second element exactly when the first compares below it. -/
def top : List (α × Nat) → Option (α × Nat)
  | [] => none
  | x :: xs =>
    match top xs with
    | none => some x
    | some b => if pairLess b x then some x else some b

/-- The operation `q.pop()` of `std::priority_queue`: removes the top element. -/
def pop (q : List (α × Nat)) : List (α × Nat) :=
  match top q with
  | none => q
  | some t => q.erase t

/-- The first loop of `get_topk`, from index `i` on, over the scores `ps` not
yet visited: `q.push(std::pair<float, int>(probs[i], i))`. -/
def pushFrom (i : Nat) : List α → List (α × Nat) → List (α × Nat)
  | [], q => q
  | p :: ps, q => pushFrom (i + 1) ps (push q (p, i))

/-- The call `v.resize(k)` of `std::vector`, with `d` the value-initialised
element. -/
def resize {β : Type} (v : List β) (k : Nat) (d : β) : List β :=
  v.take k ++ List.replicate (k - v.length) d

/-- The second loop of `get_topk` with `todo` iterations left, at index `i`:
`ki = q.top().second; out_indices[i] = ki; out_values[i] = probs[ki]; q.pop()`. -/
def selectLoop (probs : List α) :
    Nat → Nat → List (α × Nat) → List Nat → List α → Except Fault (List Nat × List α)
  | 0, _, _, out_indices, out_values => .ok (out_indices, out_values)
  | todo + 1, i, q, out_indices, out_values =>
    match top q with
    | none => .error Fault.undefinedAccess
    | some t =>
      match probs[t.2]? with
      | none => .error Fault.undefinedAccess
      | some v =>
        selectLoop probs todo (i + 1) (pop q) (out_indices.set i t.2) (out_values.set i v)

/-- The function `get_topk(probs, out_indices, out_values, k)`.  The two
output vectors are passed in with their previous contents and returned.  A
negative `k` converts to a count beyond `max_size()`, on which `resize`
throws `std::length_error`. -/
def get_topk [Zero α] (probs : List α) (out_indices : List Nat) (out_values : List α)
    (k : Int) : Except Fault (List Nat × List α) :=
  if k < 0 then .error Fault.lengthError
  else
    let out_indices := resize out_indices k.toNat 0
    let out_values := resize out_values k.toNat 0
    let q := pushFrom 0 probs []
    selectLoop probs k.toNat 0 q out_indices out_values

/-- The successive tops of `m` pops of the queue. -/
def drain : Nat → List (α × Nat) → List (α × Nat)
  | 0, _ => []
  | m + 1, q =>
    match top q with
    | none => []
    | some t => t :: drain m (pop q)

end TopK

section TopKSorting

variable {α : Type} [LinearOrder α]

/-- The selection as the specification words it: the positions `0 .. length-1`,
sorted by the pair (score, position) in descending lexicographic order, cut to
the first `k`. -/
def topkBySorting (probs : List α) (k : Nat) : List Nat :=
  ((List.insertionSort (fun a b : Lex (α × Nat) => a ≥ b)
      ((List.zip probs (List.range probs.length)).map toLex)).take k).map
    (fun x => (ofLex x).2)

end TopKSorting

/-! ## get_imagedims_for_tensorshape -/

/-- The read `tensorshape[i]` of a `std::vector`; outside `0 ≤ i < size` the
read is out of range. -/
def vectorAt (v : List Int) (i : Int) : Except Fault Int :=
  if 0 ≤ i ∧ i < (v.length : Int) then .ok (v.getD i.toNat 0)
  else .error Fault.undefinedAccess

/-- One of the three guarded reads
`x_index < tensorshape.size() ? tensorshape[x_index] : 1`. -/
def guardedAt (tensorshape : List Int) (index : Int) : Except Fault Int :=
  if index < (tensorshape.length : Int) then vectorAt tensorshape index else .ok 1

/-- The function `get_imagedims_for_tensorshape(tensorshape,
shape_includes_batch)`, returning `{w, h, c}`. -/
def get_imagedims_for_tensorshape (tensorshape : List Int)
    (shape_includes_batch : Bool) : Except Fault (List Int) :=
  let h_index : Int := if shape_includes_batch then 1 else 0
  let w_index : Int := if shape_includes_batch then 2 else 1
  let c_index : Int := if shape_includes_batch then 3 else 2
  do
    let h ← guardedAt tensorshape h_index
    let w ← guardedAt tensorshape w_index
    let c ← guardedAt tensorshape c_index
    pure [w, h, c]

/-! ## read_labels_file -/

/-- The loop `while (result.size() % padding) result.emplace_back();` with
`padding = 16`. -/
def padLabels (result : List String) : List String :=
  if result.length % 16 ≠ 0 then padLabels (result ++ [""]) else result
termination_by (16 - result.length % 16) % 16
decreasing_by
  simp only [List.length_append, List.length_singleton]
  omega

/-- The loop `while (std::getline(file, line)) result.push_back(line);` over
the lines the stream yields. -/
def pushLines (lines : List String) (result : List String) : List String :=
  lines.foldl (fun r line => r ++ [line]) result

/-- The function `read_labels_file(file_name, result)`.  The file system is
represented by what opening the file gives: `none` when the stream cannot be
opened, else the lines that `std::getline` yields.  Returned are the `bool`
result and the new contents of `result`. -/
def read_labels_file (file : Option (List String)) (result : List String) :
    Bool × List String :=
  match file with
  | none => (false, result)
  | some lines => (true, padLabels (pushLines lines []))

/-! ## log_error, load_graph_def, create_session_with_graph -/

/-- A `tensorflow::Status`, as far as the code looks at it: whether it is ok,
and the text that `ToString()` returns. -/
structure Status where
  ok : Bool
  text : String
  deriving DecidableEq, Repr

/-- A `tensorflow::GraphDef`, as an uninterpreted payload. -/
structure GraphDef where
  payload : List Nat
  deriving DecidableEq, Repr

/-- A `tensorflow::Session` handle. -/
structure Session where
  id : Nat
  deriving DecidableEq, Repr

/-- The calls into openFrameworks and the runtime that the functions make. -/
structure Runtime where
  /-- The call `ofToDataPath(path)`. -/
  ofToDataPath : String → String
  /-- The call `ReadBinaryProto(env, of_path, graph_def.get())`: its status and
  the graph it leaves in `graph_def`. -/
  readBinaryProto : String → Status × GraphDef
  /-- The call `NewSession(session_options)`: a session, or null. -/
  newSession : Option Session
  /-- The call `SetDefaultDevice(device, &graph_def)`. -/
  setDefaultDevice : String → GraphDef → GraphDef
  /-- The call `session->Create(graph_def)`. -/
  create : Session → GraphDef → Status

/-- The function `log_error(status, msg)`.  A thrown `std::runtime_error` is the
`error` case and carries the message; the line written to the log is the same
message. -/
def log_error (status : Status) (msg : String) : Except String Status :=
  if !status.ok then
    let s := msg ++ " | " ++ status.text
    .error s
  else
    .ok status

/-- The function `load_graph_def(path, env)`; `none` is the null pointer. -/
def load_graph_def (rt : Runtime) (path : String) : Except String (Option GraphDef) :=
  let of_path := rt.ofToDataPath path
  let read := rt.readBinaryProto of_path
  if read.1.ok then .ok (some read.2)
  else do
    let _ ← log_error read.1 ("Error loading graph " ++ of_path)
    pure none

/-- The overload `create_session_with_graph(graph_def, device,
session_options)` on a `GraphDef&`; `none` is the null pointer. -/
def create_session_with_graph (rt : Runtime) (graph_def : GraphDef) (device : String) :
    Except String (Option Session) :=
  match rt.newSession with
  | none => .ok none
  | some session =>
    let graph_def := if device ≠ "" then rt.setDefaultDevice device graph_def else graph_def
    do
      let _ ← log_error (rt.create session graph_def) "Error creating graph for session"
      pure (some session)

/-- The overload `create_session_with_graph(graph_def_path, device,
session_options)` on a path, which goes through the overload on a
`GraphDef_ptr`. -/
def create_session_with_graph_path (rt : Runtime) (graph_def_path : String)
    (device : String) : Except String (Option Session) :=
  do
    let graph_def ← load_graph_def rt graph_def_path
    match graph_def with
    | some g => create_session_with_graph rt g device
    | none => pure none

/-- A runtime in which reading a graph fails with the given status text. -/
def failingRuntime : Runtime where
  ofToDataPath := fun p => "data/" ++ p
  readBinaryProto := fun _ => (⟨false, "Not found: no such file"⟩, ⟨[]⟩)
  newSession := some ⟨1⟩
  setDefaultDevice := fun _ g => g
  create := fun _ _ => ⟨true, "OK"⟩

/-! ### Auxiliary facts about the embedding -/

theorem toInt32_of_range (x : Int) (h : -2147483648 ≤ x ∧ x < 2147483648) :
    toInt32 x = x := by
  unfold toInt32
  omega

theorem padChmap_length (chmap : List Int) : 3 ≤ (padChmap chmap).length := by
  simp [padChmap]
  omega

theorem padChmap_of_length (chmap : List Int) (h : 3 ≤ chmap.length) :
    padChmap chmap = chmap := by
  simp [padChmap, Nat.sub_eq_zero_of_le h]

theorem axisSize_of_nonneg (shape : List Int) (d : Int) (h : 0 ≤ d) :
    axisSize shape d = .ok (readSize shape d) := by
  unfold axisSize readSize dim_size
  by_cases hd : d < (shape.length : Int)
  · simp [hd, h, Except.map]
  · simp [hd]

theorem axisSize_of_neg (shape : List Int) (d : Int) (h : d < 0) :
    axisSize shape d = .error Fault.undefinedAccess := by
  unfold axisSize dim_size
  have h1 : (shape.length : Int) > d := by omega
  have h2 : ¬ (0 ≤ d) := by omega
  simp [h1, h2, Except.map]

theorem tensor_to_pixel_dims_of_nonneg (shape chmap : List Int)
    (h0 : 0 ≤ (indicesOf shape chmap).1) (h1 : 0 ≤ (indicesOf shape chmap).2.1)
    (h2 : 0 ≤ (indicesOf shape chmap).2.2) :
    tensor_to_pixel_dims shape chmap =
      .ok [readSize shape (indicesOf shape chmap).1,
           readSize shape (indicesOf shape chmap).2.1,
           readSize shape (indicesOf shape chmap).2.2] := by
  unfold indicesOf at h0 h1 h2
  simp only [tensor_to_pixel_dims, indicesOf, axisSize_of_nonneg _ _ h0,
    axisSize_of_nonneg _ _ h1, axisSize_of_nonneg _ _ h2]
  rfl

theorem readSize_eq_literalSize (shape : List Int) (hs : InInt32 shape) (d : Int)
    (h : 0 ≤ d) : readSize shape d = literalSize shape d.toNat := by
  unfold readSize literalSize
  by_cases hd : d < (shape.length : Int)
  · have hn : d.toNat < shape.length := by omega
    have hmem : shape.getD d.toNat 0 ∈ shape := by
      rw [List.getD_eq_getElem _ _ hn]
      exact List.getElem_mem hn
    simp only [hd, hn, if_true]
    exact toInt32_of_range _ (hs _ hmem)
  · have hn : ¬ d.toNat < shape.length := by omega
    simp [hd, hn]

theorem indicesOf_rank_ge_three (shape chmap : List Int) (hr : 3 ≤ shape.length)
    (hl : chmap.length = 3) : indicesOf shape chmap = decodeIndices chmap := by
  unfold indicesOf
  rw [padChmap_of_length chmap (by omega)]
  unfold adjustIndices
  have : ¬ shape.length < chmap.length := by omega
  simp [this]

/-- C1 (amended): for a shape of rank `R ≥ 3` whose axis sizes lie in the signed
32-bit range and a role string of three digit characters, no rank adjustment
is applied: each of width, height, channels is `shape[d]` when the decoded
digit `d` of its character is `< R`, and `1` otherwise. -/
theorem tensor_to_pixel_dims_rank_ge_three (shape chmap : List Int)
    (hr : 3 ≤ shape.length) (hs : InInt32 shape) (hl : chmap.length = 3)
    (hd : AllDigits chmap) :
    tensor_to_pixel_dims shape chmap =
      .ok [literalSize shape (chmap.getD 0 0 - 48).toNat,
           literalSize shape (chmap.getD 1 0 - 48).toNat,
           literalSize shape (chmap.getD 2 0 - 48).toNat] := by
  obtain ⟨c0, c1, c2, rfl⟩ := List.length_eq_three.mp hl
  have h0 := hd c0 (by simp)
  have h1 := hd c1 (by simp)
  have h2 := hd c2 (by simp)
  have hi := indicesOf_rank_ge_three shape [c0, c1, c2] hr hl
  have e0 : (indicesOf shape [c0, c1, c2]).1 = c0 - 48 := by rw [hi]; rfl
  have e1 : (indicesOf shape [c0, c1, c2]).2.1 = c1 - 48 := by rw [hi]; rfl
  have e2 : (indicesOf shape [c0, c1, c2]).2.2 = c2 - 48 := by rw [hi]; rfl
  rw [tensor_to_pixel_dims_of_nonneg shape [c0, c1, c2] (by omega) (by omega) (by omega),
    e0, e1, e2, readSize_eq_literalSize shape hs _ (by omega),
    readSize_eq_literalSize shape hs _ (by omega),
    readSize_eq_literalSize shape hs _ (by omega)]
  simp

/-- Witness for C1: role string "012" on the shape `[2, 3, 4, 5]` gives
`(shape[0], shape[1], shape[2])`. -/
theorem tensor_to_pixel_dims_rank_ge_three_witness :
    tensor_to_pixel_dims [2, 3, 4, 5] [48, 49, 50] = .ok [2, 3, 4] :=
  tensor_to_pixel_dims_rank_ge_three [2, 3, 4, 5] [48, 49, 50] (by decide)
    (by unfold InInt32; decide) (by decide) (by unfold AllDigits; decide)

/-- C1 as stated fails: an axis of size `2^31` with role string "012" is
returned as `-2^31`, not as `shape[0]`. -/
theorem tensor_to_pixel_dims_rank_ge_three_counterexample :
    tensor_to_pixel_dims [2147483648, 1, 1] (ofAscii "012") = .ok [-2147483648, 1, 1] ∧
    tensor_to_pixel_dims [2147483648, 1, 1] (ofAscii "012") ≠
      .ok [literalSize [2147483648, 1, 1] 0, literalSize [2147483648, 1, 1] 1,
           literalSize [2147483648, 1, 1] 2] := by
  decide

theorem indicesOf_rank_two (a b : Int) (chmap : List Int) :
    indicesOf [a, b] chmap =
      if (decodeIndices (padChmap chmap)).2.1 > (decodeIndices (padChmap chmap)).1
      then (0, 1, 99) else (1, 0, 99) := by
  have hl := padChmap_length chmap
  have : 2 < (padChmap chmap).length := by omega
  simp [indicesOf, adjustIndices, this]

theorem indicesOf_rank_one (n : Int) (chmap : List Int) :
    indicesOf [n] chmap = (0, 99, 99) := by
  have hl := padChmap_length chmap
  have : 1 < (padChmap chmap).length := by omega
  simp [indicesOf, adjustIndices, this]

theorem indicesOf_of_rank (shape chmap : List Int) (h1 : shape.length ≠ 1)
    (h2 : shape.length ≠ 2) : indicesOf shape chmap = decodeIndices (padChmap chmap) := by
  simp [indicesOf, adjustIndices, h1, h2]

/-- C2 (amended): for a rank-2 shape `[a, b]` with `a`, `b` in the signed 32-bit
range and every role string, the result is `(a, b, 1)` when the decoded height
index exceeds the decoded width index, and `(b, a, 1)` otherwise. -/
theorem tensor_to_pixel_dims_rank_two (a b : Int) (chmap : List Int)
    (hs : InInt32 [a, b]) :
    tensor_to_pixel_dims [a, b] chmap =
      if (decodeIndices (padChmap chmap)).2.1 > (decodeIndices (padChmap chmap)).1
      then .ok [a, b, 1] else .ok [b, a, 1] := by
  have ha := toInt32_of_range a (hs a (by simp))
  have hb := toInt32_of_range b (hs b (by simp))
  have hi := indicesOf_rank_two a b chmap
  by_cases hc : (decodeIndices (padChmap chmap)).2.1 > (decodeIndices (padChmap chmap)).1
  · rw [if_pos hc] at hi
    rw [if_pos hc, tensor_to_pixel_dims_of_nonneg [a, b] chmap (by simp [hi])
      (by simp [hi]) (by simp [hi]), hi]
    simp [readSize, ha, hb]
  · rw [if_neg hc] at hi
    rw [if_neg hc, tensor_to_pixel_dims_of_nonneg [a, b] chmap (by simp [hi])
      (by simp [hi]) (by simp [hi]), hi]
    simp [readSize, ha, hb]

/-- Witness for C2: role string "10" on the shape `[5, 7]` gives width
`shape[1]`, height `shape[0]`, channels `1`. -/
theorem tensor_to_pixel_dims_rank_two_witness :
    tensor_to_pixel_dims [5, 7] [49, 48] =
      if (decodeIndices (padChmap [49, 48])).2.1 > (decodeIndices (padChmap [49, 48])).1
      then .ok [5, 7, 1] else .ok [7, 5, 1] :=
  tensor_to_pixel_dims_rank_two 5 7 [49, 48] (by unfold InInt32; decide)

/-- C2 as stated fails: on the rank-2 shape `[2^31, 7]` with role string "01"
the decoded height index `1` exceeds the decoded width index `0`, yet the
result is `(-2^31, 7, 1)`, not `(a, b, 1)`. -/
theorem tensor_to_pixel_dims_rank_two_counterexample :
    (decodeIndices (padChmap (ofAscii "01"))).2.1 > (decodeIndices (padChmap (ofAscii "01"))).1 ∧
    tensor_to_pixel_dims [2147483648, 7] (ofAscii "01") = .ok [-2147483648, 7, 1] ∧
    tensor_to_pixel_dims [2147483648, 7] (ofAscii "01") ≠ .ok [2147483648, 7, 1] := by
  decide

/-- C3 (amended): for a rank-1 shape `[N]` and every role string the result is
`((int)N, 1, 1)`: the single axis goes to width (converted to 32-bit `int`),
height and channels are `1`, and the role string is ignored. -/
theorem tensor_to_pixel_dims_rank_one (n : Int) (chmap : List Int) :
    tensor_to_pixel_dims [n] chmap = .ok [toInt32 n, 1, 1] := by
  have hi := indicesOf_rank_one n chmap
  rw [tensor_to_pixel_dims_of_nonneg [n] chmap (by simp [hi])
    (by simp [hi]) (by simp [hi]), hi]
  simp [readSize]

/-- C3 as stated fails: on the rank-1 shape `[5]` with role string "022" the
decoded height and channel indices are both `2 ≥ 1`, yet the width is `5` and
the result is not `(1, 1, 1)`. -/
theorem tensor_to_pixel_dims_rank_one_counterexample :
    1 ≤ (decodeIndices (padChmap (ofAscii "022"))).2.1 ∧
    1 ≤ (decodeIndices (padChmap (ofAscii "022"))).2.2 ∧
    tensor_to_pixel_dims [5] (ofAscii "022") = .ok [5, 1, 1] ∧
    tensor_to_pixel_dims [5] (ofAscii "022") ≠ .ok [1, 1, 1] := by
  decide

/-- C4 (the code at the failing input): on the rank-0 shape with role string
"/" the decoded index is `-1`, the test `rank > -1` succeeds, and the code
reads `t.dim_size(-1)`, which is out of range; it does not return
`(1, 1, 1)`. -/
theorem tensor_to_pixel_dims_rank_zero_reads_axis :
    (decodeIndices (padChmap (ofAscii "/"))).1 = -1 ∧
    axisSize [] (-1) = .error Fault.undefinedAccess ∧
    tensor_to_pixel_dims [] (ofAscii "/") = .error Fault.undefinedAccess ∧
    tensor_to_pixel_dims [] (ofAscii "/") ≠ .ok [1, 1, 1] := by
  decide

theorem padChmap_atLeastZeroChar (chmap : List Int) (h : AtLeastZeroChar chmap) :
    AtLeastZeroChar (padChmap chmap) := by
  intro c hc
  unfold padChmap at hc
  rcases List.mem_append.mp hc with hc | hc
  · exact h c hc
  · rw [(List.mem_replicate.mp hc).2]
    decide

theorem getD_sub_nonneg (l : List Int) (h : AtLeastZeroChar l) (i : Nat)
    (hi : i < l.length) : 0 ≤ l.getD i 0 - 48 := by
  have hmem : l.getD i 0 ∈ l := by
    rw [List.getD_eq_getElem _ _ hi]
    exact List.getElem_mem hi
  have := h _ hmem
  omega

theorem decodeIndices_nonneg (chmap : List Int) (h : AtLeastZeroChar chmap) :
    0 ≤ (decodeIndices (padChmap chmap)).1 ∧ 0 ≤ (decodeIndices (padChmap chmap)).2.1 ∧
    0 ≤ (decodeIndices (padChmap chmap)).2.2 := by
  have hl := padChmap_length chmap
  have hp := padChmap_atLeastZeroChar chmap h
  exact ⟨getD_sub_nonneg _ hp 0 (by omega), getD_sub_nonneg _ hp 1 (by omega),
    getD_sub_nonneg _ hp 2 (by omega)⟩

theorem adjustIndices_nonneg (rank len : Nat) (d : Int × Int × Int)
    (h : 0 ≤ d.1 ∧ 0 ≤ d.2.1 ∧ 0 ≤ d.2.2) :
    0 ≤ (adjustIndices rank len d).1 ∧ 0 ≤ (adjustIndices rank len d).2.1 ∧
    0 ≤ (adjustIndices rank len d).2.2 := by
  unfold adjustIndices
  split_ifs <;> first | exact h | decide

theorem indicesOf_nonneg (shape chmap : List Int) (h : AtLeastZeroChar chmap) :
    0 ≤ (indicesOf shape chmap).1 ∧ 0 ≤ (indicesOf shape chmap).2.1 ∧
    0 ≤ (indicesOf shape chmap).2.2 :=
  adjustIndices_nonneg _ _ _ (decodeIndices_nonneg chmap h)

theorem axisSize_cases (shape : List Int) (d : Int) :
    (∃ v, axisSize shape d = .ok v) ∨ axisSize shape d = .error Fault.undefinedAccess := by
  by_cases h : 0 ≤ d
  · exact Or.inl ⟨_, axisSize_of_nonneg shape d h⟩
  · exact Or.inr (axisSize_of_neg shape d (by omega))

theorem tensor_to_pixel_dims_cases (shape chmap : List Int) :
    (∃ dims, tensor_to_pixel_dims shape chmap = .ok dims) ∨
    tensor_to_pixel_dims shape chmap = .error Fault.undefinedAccess := by
  unfold tensor_to_pixel_dims
  simp only []
  rcases axisSize_cases shape
      (adjustIndices shape.length (padChmap chmap).length (decodeIndices (padChmap chmap))).1
    with ⟨w, hw⟩ | hw
  · rcases axisSize_cases shape
        (adjustIndices shape.length (padChmap chmap).length (decodeIndices (padChmap chmap))).2.1
      with ⟨h, hh⟩ | hh
    · rcases axisSize_cases shape
          (adjustIndices shape.length (padChmap chmap).length
            (decodeIndices (padChmap chmap))).2.2
        with ⟨c, hc⟩ | hc
      · exact Or.inl ⟨[w, h, c], by rw [hw, hh, hc]; rfl⟩
      · exact Or.inr (by rw [hw, hh, hc]; rfl)
    · exact Or.inr (by rw [hw, hh]; rfl)
  · exact Or.inr (by rw [hw]; rfl)

theorem readSize_beyond (shape : List Int) (d : Int) (h : (shape.length : Int) ≤ d) :
    readSize shape d = 1 := by
  unfold readSize
  have : ¬ d < (shape.length : Int) := by omega
  simp [this]

theorem padChmap_getD_filler (chmap : List Int) (i : Nat) (h : chmap.length ≤ i)
    (hi : i < 3) : (padChmap chmap).getD i 0 = 122 := by
  rcases chmap with _ | ⟨c0, _ | ⟨c1, _ | ⟨c2, t⟩⟩⟩
  · interval_cases i <;> simp [padChmap, List.replicate]
  · simp only [List.length_cons, List.length_nil] at h
    interval_cases i <;> simp [padChmap, List.replicate]
  · simp only [List.length_cons, List.length_nil] at h
    have h2 : i = 2 := by omega
    subst h2
    simp [padChmap, List.replicate]
  · simp only [List.length_cons] at h
    omega

/-- C5 (amended): for a shape of rank at most `74` and a role string of fewer
than 3 characters (all with codes of at least `'0'`, unless the rank is 1 or 2,
where the decoded indices are discarded), the string is padded with `'z'`,
whose decoded index `74` is `≥` the rank, and every role whose character was
not supplied resolves to size `1`, except the roles that the rank adjustment
assigns to a tensor axis: width at rank 1, width and height at rank 2. -/
theorem tensor_to_pixel_dims_short_spec (shape chmap : List Int)
    (hr : shape.length ≤ 74) (_hl : chmap.length < 3)
    (hz : shape.length = 1 ∨ shape.length = 2 ∨ AtLeastZeroChar chmap) :
    ∃ dims, tensor_to_pixel_dims shape chmap = .ok dims ∧ dims.length = 3 ∧
      ∀ i, chmap.length ≤ i → i < 3 →
        ((padChmap chmap).getD i 0 = 122 ∧
          (shape.length : Int) ≤ (padChmap chmap).getD i 0 - 48 ∧
          (3 ≤ shape.length ∨ shape.length ≤ i → dims.getD i 0 = 1)) := by
  have hnn : 0 ≤ (indicesOf shape chmap).1 ∧ 0 ≤ (indicesOf shape chmap).2.1 ∧
      0 ≤ (indicesOf shape chmap).2.2 := by
    rcases hz with h1 | h2 | hz
    · obtain ⟨n, rfl⟩ := List.length_eq_one.mp h1
      rw [indicesOf_rank_one]
      decide
    · obtain ⟨a, b, rfl⟩ := List.length_eq_two.mp h2
      rw [indicesOf_rank_two]
      split_ifs <;> decide
    · exact indicesOf_nonneg shape chmap hz
  refine ⟨_, tensor_to_pixel_dims_of_nonneg shape chmap hnn.1 hnn.2.1 hnn.2.2, by simp, ?_⟩
  intro i hle hlt
  have hf := padChmap_getD_filler chmap i hle hlt
  have hrank : (shape.length : Int) ≤ (padChmap chmap).getD i 0 - 48 := by
    rw [hf]; omega
  refine ⟨hf, hrank, ?_⟩
  intro hcond
  by_cases h1 : shape.length = 1
  · obtain ⟨n, rfl⟩ := List.length_eq_one.mp h1
    rw [indicesOf_rank_one]
    simp only [List.length_singleton] at hcond
    have hi : i = 1 ∨ i = 2 := by omega
    rcases hi with rfl | rfl <;> simp [readSize]
  · by_cases h2 : shape.length = 2
    · obtain ⟨a, b, rfl⟩ := List.length_eq_two.mp h2
      rw [indicesOf_rank_two]
      simp only [List.length_cons, List.length_nil] at hcond
      have hi : i = 2 := by omega
      subst hi
      split_ifs <;> simp [readSize]
    · rw [indicesOf_of_rank shape chmap h1 h2]
      interval_cases i
      · simpa [decodeIndices] using readSize_beyond shape _ hrank
      · simpa [decodeIndices] using readSize_beyond shape _ hrank
      · simpa [decodeIndices] using readSize_beyond shape _ hrank

/-- Witness for C5: the role string "10" on the rank-2 shape `[5, 7]` leaves
the channels, whose character was not supplied, at `1`. -/
theorem tensor_to_pixel_dims_short_spec_witness :
    ∃ dims, tensor_to_pixel_dims [5, 7] [49, 48] = .ok dims ∧ dims.length = 3 ∧
      ∀ i, [(49 : Int), 48].length ≤ i → i < 3 →
        ((padChmap [49, 48]).getD i 0 = 122 ∧
          (([5, 7] : List Int).length : Int) ≤ (padChmap [49, 48]).getD i 0 - 48 ∧
          (3 ≤ ([5, 7] : List Int).length ∨ ([5, 7] : List Int).length ≤ i →
            dims.getD i 0 = 1)) :=
  tensor_to_pixel_dims_short_spec [5, 7] [49, 48] (by decide) (by decide)
    (Or.inr (Or.inl rfl))

/-- C5 as stated fails.  The filler decodes to `74`; on a shape of rank 75 with
two elements (axis 74 of size 2, all others of size 1) and the empty role
string, all three roles read axis 74 and none resolves to `1`.  On the rank-1
shape `[5]` with the empty string the width resolves to `5`; on the rank-2
shape `[5, 7]` with the string "1" the height, whose character was not
supplied, resolves to `7`, and with the empty string width and height resolve
to `7` and `5`.  With the string "/" on `[2, 3, 4]` the call reads out of range
and no role resolves at all. -/
theorem tensor_to_pixel_dims_short_spec_counterexample :
    (decodeIndices (padChmap [])).1 = 74 ∧
    tensor_to_pixel_dims (List.replicate 74 1 ++ [2]) [] = .ok [2, 2, 2] ∧
    tensor_to_pixel_dims [5] [] = .ok [5, 1, 1] ∧
    tensor_to_pixel_dims [5, 7] (ofAscii "1") = .ok [5, 7, 1] ∧
    tensor_to_pixel_dims [5, 7] [] = .ok [7, 5, 1] ∧
    tensor_to_pixel_dims [2, 3, 4] (ofAscii "/") = .error Fault.undefinedAccess := by
  decide

/-- C6 (amended): `tensor_to_pixel_dims` validates nothing and never reports
`InvalidArgument`; for every role string whose characters all have codes of at
least `'0'` (every string of digits among them) it returns a result. -/
theorem tensor_to_pixel_dims_no_invalid_argument :
    (∀ shape chmap : List Int,
      tensor_to_pixel_dims shape chmap ≠ .error Fault.invalidArgument) ∧
    (∀ shape chmap : List Int, AtLeastZeroChar chmap →
      ∃ dims, tensor_to_pixel_dims shape chmap = .ok dims ∧ dims.length = 3) := by
  constructor
  · intro shape chmap
    rcases tensor_to_pixel_dims_cases shape chmap with ⟨dims, h⟩ | h <;> simp [h]
  · intro shape chmap hz
    obtain ⟨n0, n1, n2⟩ := indicesOf_nonneg shape chmap hz
    exact ⟨_, tensor_to_pixel_dims_of_nonneg shape chmap n0 n1 n2, by simp⟩

/-- Witness for C6: the digit string "210" on the shape `[2, 3, 4]`. -/
theorem tensor_to_pixel_dims_no_invalid_argument_witness :
    ∃ dims, tensor_to_pixel_dims [2, 3, 4] [50, 49, 48] = .ok dims ∧ dims.length = 3 :=
  tensor_to_pixel_dims_no_invalid_argument.2 [2, 3, 4] [50, 49, 48]
    (by unfold AtLeastZeroChar; decide)

/-- C6 as stated fails: the caller-supplied role string "01z" contains the
character `'z'`, which is not a digit, and the call returns `(2, 3, 1)` with no
error. -/
theorem tensor_to_pixel_dims_no_invalid_argument_counterexample :
    ¬ AllDigits (ofAscii "01z") ∧
    tensor_to_pixel_dims [2, 3, 4] (ofAscii "01z") = .ok [2, 3, 1] ∧
    tensor_to_pixel_dims [2, 3, 4] (ofAscii "01z") ≠ .error Fault.invalidArgument := by
  refine ⟨?_, by decide, by decide⟩
  intro h
  have := h 122 (by decide)
  omega

theorem readSize_pos (shape : List Int) (hs : ∀ x ∈ shape, 1 ≤ x ∧ x < 2147483648)
    (d : Int) (h0 : 0 ≤ d) : 1 ≤ readSize shape d := by
  unfold readSize
  by_cases hd : d < (shape.length : Int)
  · simp only [hd, if_true]
    by_cases hn : d.toNat < shape.length
    · have hmem : shape.getD d.toNat 0 ∈ shape := by
        rw [List.getD_eq_getElem _ _ hn]
        exact List.getElem_mem hn
      have := hs _ hmem
      rw [toInt32_of_range _ (by omega)]
      exact this.1
    · omega
  · simp [hd]

/-- C7 (amended): for a shape whose axis sizes all lie in `1 .. 2^31 - 1` and a
role string of three digits, each of width, height and channels is `≥ 1`. -/
theorem tensor_to_pixel_dims_positive (shape chmap : List Int)
    (hs : ∀ x ∈ shape, 1 ≤ x ∧ x < 2147483648) (_hl : chmap.length = 3)
    (hd : AllDigits chmap) :
    ∃ w h c, tensor_to_pixel_dims shape chmap = .ok [w, h, c] ∧ 1 ≤ w ∧ 1 ≤ h ∧ 1 ≤ c := by
  have hz : AtLeastZeroChar chmap := fun c hc => (hd c hc).1
  obtain ⟨n0, n1, n2⟩ := indicesOf_nonneg shape chmap hz
  exact ⟨_, _, _, tensor_to_pixel_dims_of_nonneg shape chmap n0 n1 n2,
    readSize_pos shape hs _ n0, readSize_pos shape hs _ n1, readSize_pos shape hs _ n2⟩

/-- Witness for C7: role string "021" on the shape `[2, 3, 4]`. -/
theorem tensor_to_pixel_dims_positive_witness :
    ∃ w h c, tensor_to_pixel_dims [2, 3, 4] [48, 50, 49] = .ok [w, h, c] ∧
      1 ≤ w ∧ 1 ≤ h ∧ 1 ≤ c :=
  tensor_to_pixel_dims_positive [2, 3, 4] [48, 50, 49] (by decide) (by decide)
    (by unfold AllDigits; decide)

/-- C7 as stated fails: the shape `[0, 5, 5]` has non-negative axis sizes, and
with role string "012" the returned width is `0`. -/
theorem tensor_to_pixel_dims_positive_counterexample :
    tensor_to_pixel_dims [0, 5, 5] (ofAscii "012") = .ok [0, 5, 5] ∧
    ¬ ∃ w h c, tensor_to_pixel_dims [0, 5, 5] (ofAscii "012") = .ok [w, h, c] ∧
      1 ≤ w ∧ 1 ≤ h ∧ 1 ≤ c := by
  have he : tensor_to_pixel_dims [0, 5, 5] (ofAscii "012") = .ok [0, 5, 5] := by decide
  refine ⟨he, ?_⟩
  rintro ⟨w, h, c, hr, hw, _, _⟩
  rw [he] at hr
  simp only [Except.ok.injEq, List.cons.injEq] at hr
  omega

/-! ### Facts about the priority queue -/

theorem pushFrom_length {α : Type} (i : Nat) (ps : List α) (q : List (α × Nat)) :
    (pushFrom i ps q).length = q.length + ps.length := by
  induction ps generalizing i q with
  | nil => simp [pushFrom]
  | cons p ps ih =>
    simp only [pushFrom, push, ih, List.length_cons]
    omega

theorem mem_pushFrom {α : Type} (i : Nat) (ps : List α) (q : List (α × Nat)) (t : α × Nat) :
    t ∈ pushFrom i ps q ↔ t ∈ q ∨ ∃ j, ps[j]? = some t.1 ∧ t.2 = i + j := by
  induction ps generalizing i q with
  | nil => simp [pushFrom]
  | cons p ps ih =>
    simp only [pushFrom, push, ih, List.mem_cons]
    constructor
    · rintro ((h | h) | ⟨j, h1, h2⟩)
      · exact Or.inr ⟨0, by simp [h]⟩
      · exact Or.inl h
      · exact Or.inr ⟨j + 1, by simpa using h1, by omega⟩
    · rintro (h | ⟨j, h1, h2⟩)
      · exact Or.inl (Or.inr h)
      · cases j with
        | zero =>
          simp only [List.getElem?_cons_zero, Option.some.injEq, Nat.add_zero] at h1 h2
          exact Or.inl (Or.inl (Prod.ext h1.symm h2))
        | succ j =>
          exact Or.inr ⟨j, by simpa using h1, by omega⟩

theorem mem_fill {α : Type} (probs : List α) (t : α × Nat) :
    t ∈ pushFrom 0 probs [] ↔ probs[t.2]? = some t.1 := by
  rw [mem_pushFrom]
  constructor
  · rintro (h | ⟨j, h1, h2⟩)
    · simp at h
    · rw [h2, Nat.zero_add]; exact h1
  · intro h
    exact Or.inr ⟨t.2, h, by omega⟩

section TopKFacts

variable {α : Type} [LinearOrder α]

theorem pairLess_iff (a b : α × Nat) : pairLess a b = true ↔ toLex a < toLex b := by
  rw [Prod.Lex.lt_iff]
  simp only [pairLess, Bool.or_eq_true, Bool.and_eq_true, Bool.not_eq_true',
    decide_eq_true_eq, decide_eq_false_iff_not, ofLex_toLex]
  constructor
  · rintro (h | ⟨h1, h2⟩)
    · exact Or.inl h
    · rcases lt_or_eq_of_le (not_lt.mp h1) with h | h
      · exact Or.inl h
      · exact Or.inr ⟨h, h2⟩
  · rintro (h | ⟨h1, h2⟩)
    · exact Or.inl h
    · exact Or.inr ⟨by rw [h1]; exact lt_irrefl _, h2⟩

theorem fst_le_of_lex_le (x t : α × Nat) (h : toLex x ≤ toLex t) : x.1 ≤ t.1 := by
  rw [Prod.Lex.le_iff] at h
  rcases h with h | ⟨h, _⟩
  · exact le_of_lt h
  · exact le_of_eq h

theorem top_eq_none (q : List (α × Nat)) : top q = none ↔ q = [] := by
  cases q with
  | nil => simp [top]
  | cons x xs =>
    simp only [top, reduceCtorEq, iff_false]
    cases top xs with
    | none => simp
    | some b => by_cases h : pairLess b x = true <;> simp [h]

theorem top_mem (q : List (α × Nat)) (t : α × Nat) (h : top q = some t) : t ∈ q := by
  induction q generalizing t with
  | nil => simp [top] at h
  | cons x xs ih =>
    simp only [top] at h
    cases hx : top xs with
    | none =>
      rw [hx] at h
      simp only [Option.some.injEq] at h
      simp [h]
    | some b =>
      rw [hx] at h
      by_cases hb : pairLess b x = true
      · dsimp only at h
        rw [if_pos hb] at h
        simp only [Option.some.injEq] at h
        simp [h]
      · dsimp only at h
        rw [if_neg hb] at h
        simp only [Option.some.injEq] at h
        subst h
        exact List.mem_cons_of_mem _ (ih b hx)

theorem top_ge (q : List (α × Nat)) (t : α × Nat) (h : top q = some t) :
    ∀ x ∈ q, toLex x ≤ toLex t := by
  induction q generalizing t with
  | nil => simp [top] at h
  | cons y ys ih =>
    simp only [top] at h
    cases hy : top ys with
    | none =>
      rw [hy] at h
      simp only [Option.some.injEq] at h
      have hnil := (top_eq_none ys).mp hy
      subst hnil
      subst h
      intro x hx
      simp only [List.mem_singleton] at hx
      rw [hx]
    | some b =>
      rw [hy] at h
      have ihb := ih b hy
      by_cases hb : pairLess b y = true
      · dsimp only at h
        rw [if_pos hb] at h
        simp only [Option.some.injEq] at h
        subst h
        have hlt := (pairLess_iff b y).mp hb
        intro x hx
        rcases List.mem_cons.mp hx with hx | hx
        · rw [hx]
        · exact le_trans (ihb x hx) (le_of_lt hlt)
      · dsimp only at h
        rw [if_neg hb] at h
        simp only [Option.some.injEq] at h
        subst h
        have hnlt : ¬ toLex b < toLex y := fun hc => hb ((pairLess_iff b y).mpr hc)
        intro x hx
        rcases List.mem_cons.mp hx with hx | hx
        · rw [hx]
          exact not_lt.mp hnlt
        · exact ihb x hx

theorem top_isSome (q : List (α × Nat)) (h : 0 < q.length) : ∃ t, top q = some t := by
  cases ht : top q with
  | none =>
    have := (top_eq_none q).mp ht
    subst this
    simp at h
  | some t => exact ⟨t, rfl⟩

theorem pop_length (q : List (α × Nat)) (t : α × Nat) (h : top q = some t) :
    (pop q).length + 1 = q.length := by
  have hm := top_mem q t h
  have hpos : 0 < q.length := List.length_pos_of_mem hm
  simp only [pop, h, List.length_erase_of_mem hm]
  omega

theorem pop_subset (q : List (α × Nat)) (x : α × Nat) (h : x ∈ pop q) : x ∈ q := by
  unfold pop at h
  cases ht : top q with
  | none => rw [ht] at h; exact h
  | some t => rw [ht] at h; exact List.mem_of_mem_erase h

theorem mem_pop_of_ne (q : List (α × Nat)) (t x : α × Nat) (h : top q = some t)
    (hx : x ∈ q) (hne : x ≠ t) : x ∈ pop q := by
  simp only [pop, h]
  exact (List.mem_erase_of_ne hne).mpr hx

theorem drain_length (m : Nat) (q : List (α × Nat)) (h : m ≤ q.length) :
    (drain m q).length = m := by
  induction m generalizing q with
  | zero => rfl
  | succ m ih =>
    obtain ⟨t, ht⟩ := top_isSome q (by omega)
    have hp := pop_length q t ht
    simp only [drain, ht, List.length_cons]
    rw [ih (pop q) (by omega)]

theorem drain_subset (m : Nat) (q : List (α × Nat)) (x : α × Nat)
    (h : x ∈ drain m q) : x ∈ q := by
  induction m generalizing q with
  | zero => simp [drain] at h
  | succ m ih =>
    cases ht : top q with
    | none => simp [drain, ht] at h
    | some t =>
      simp only [drain, ht, List.mem_cons] at h
      rcases h with h | h
      · rw [h]; exact top_mem q t ht
      · exact pop_subset q x (ih (pop q) h)

theorem drain_sorted (m : Nat) (q : List (α × Nat)) :
    List.Pairwise (fun a b => b.1 ≤ a.1) (drain m q) := by
  induction m generalizing q with
  | zero => simp [drain]
  | succ m ih =>
    cases ht : top q with
    | none => simp [drain, ht]
    | some t =>
      simp only [drain, ht]
      refine List.Pairwise.cons ?_ (ih (pop q))
      intro x hx
      exact fst_le_of_lex_le x t
        (top_ge q t ht x (pop_subset q x (drain_subset m (pop q) x hx)))

theorem drain_dominates (m : Nat) (q : List (α × Nat)) (x : α × Nat) (hx : x ∈ q)
    (hn : x ∉ drain m q) : ∀ t ∈ drain m q, x.1 ≤ t.1 := by
  induction m generalizing q with
  | zero => simp [drain]
  | succ m ih =>
    cases ht : top q with
    | none => simp [drain, ht]
    | some t =>
      simp only [drain, ht, List.mem_cons, not_or] at hn ⊢
      intro y hy
      rcases hy with hy | hy
      · rw [hy]
        exact fst_le_of_lex_le x t (top_ge q t ht x hx)
      · exact ih (pop q) (mem_pop_of_ne q t x ht hx hn.1) hn.2 y hy

theorem take_set_succ {β : Type} (l : List β) (i : Nat) (x : β) (h : i < l.length) :
    (l.set i x).take (i + 1) = l.take i ++ [x] := by
  induction l generalizing i with
  | nil => simp at h
  | cons y ys ih =>
    cases i with
    | zero => simp
    | succ i =>
      simp only [List.length_cons, Nat.add_lt_add_iff_right] at h
      simp [List.set, ih i h]

theorem selectLoop_eq (probs : List α) (m i : Nat) (q : List (α × Nat))
    (out_indices : List Nat) (out_values : List α)
    (hi : out_indices.length = i + m) (hv : out_values.length = i + m)
    (hm : m ≤ q.length) (hq : ∀ t ∈ q, probs[t.2]? = some t.1) :
    selectLoop probs m i q out_indices out_values =
      .ok (out_indices.take i ++ (drain m q).map Prod.snd,
           out_values.take i ++ (drain m q).map Prod.fst) := by
  induction m generalizing i q out_indices out_values with
  | zero =>
    simp only [selectLoop, drain, List.map_nil, List.append_nil]
    rw [List.take_of_length_le (by omega), List.take_of_length_le (by omega)]
  | succ m ih =>
    obtain ⟨t, ht⟩ := top_isSome q (by omega)
    have hp := pop_length q t ht
    have hpt := hq t (top_mem q t ht)
    simp only [selectLoop, ht, hpt, drain, List.map_cons]
    rw [ih (i + 1) (pop q) (out_indices.set i t.2) (out_values.set i t.1)
      (by simp; omega) (by simp; omega) (by omega)
      (fun x hx => hq x (pop_subset q x hx)),
      take_set_succ _ _ _ (by omega), take_set_succ _ _ _ (by omega)]
    simp

theorem resize_length {β : Type} (v : List β) (k : Nat) (d : β) :
    (resize v k d).length = k := by
  simp only [resize, List.length_append, List.length_take, List.length_replicate]
  omega

theorem get_topk_eq [Zero α] (probs : List α) (out_indices : List Nat)
    (out_values : List α) (k : Int) (h0 : 0 ≤ k) (hk : k ≤ probs.length) :
    get_topk probs out_indices out_values k =
      .ok ((drain k.toNat (pushFrom 0 probs [])).map Prod.snd,
           (drain k.toNat (pushFrom 0 probs [])).map Prod.fst) := by
  have hneg : ¬ k < 0 := by omega
  simp only [get_topk, hneg, if_false]
  rw [selectLoop_eq probs k.toNat 0 _ _ _ (by simp [resize_length])
    (by simp [resize_length]) (by rw [pushFrom_length]; simp; omega)
    (fun t ht => (mem_fill probs t).mp ht)]
  simp

end TopKFacts

/-! ### Properties of get_topk -/

section TopKClaims

variable {α : Type} [LinearOrder α] [Zero α]

/-- C8: for every score sequence and every `k` with `0 ≤ k ≤ length(scores)`,
`get_topk` returns, and the `k` returned values are in non-increasing order:
every value is `≥` every value that follows it. -/
theorem get_topk_values_nonincreasing (probs : List α) (out_indices : List Nat)
    (out_values : List α) (k : Int) (h0 : 0 ≤ k) (hk : k ≤ probs.length) :
    ∃ idx vals, get_topk probs out_indices out_values k = .ok (idx, vals) ∧
      vals.length = k.toNat ∧ List.Pairwise (fun a b => b ≤ a) vals := by
  refine ⟨_, _, get_topk_eq probs out_indices out_values k h0 hk, ?_, ?_⟩
  · rw [List.length_map, drain_length _ _ (by rw [pushFrom_length]; simp; omega)]
  · rw [List.pairwise_map]
    exact drain_sorted _ _

/-- Witness for C8: the scores `[1, 9, 3, 9, 0]` with `k = 3`. -/
theorem get_topk_values_nonincreasing_witness :
    ∃ idx vals, get_topk ([1, 9, 3, 9, 0] : List Int) [] [] 3 = .ok (idx, vals) ∧
      vals.length = (3 : Int).toNat ∧ List.Pairwise (fun a b => b ≤ a) vals :=
  get_topk_values_nonincreasing [1, 9, 3, 9, 0] [] [] 3 (by decide) (by decide)

/-- C10: for every score sequence and every `k` with `0 ≤ k ≤ length(scores)`,
`get_topk` returns `out_indices` and `out_values` both of length exactly `k`,
whatever the two vectors held before, and for every `i < k` the index
`out_indices[i]` is a valid position of the input with
`out_values[i] = scores[out_indices[i]]`. -/
theorem get_topk_lengths_and_positions (probs : List α) (out_indices : List Nat)
    (out_values : List α) (k : Int) (h0 : 0 ≤ k) (hk : k ≤ probs.length) :
    ∃ idx vals, get_topk probs out_indices out_values k = .ok (idx, vals) ∧
      idx.length = k.toNat ∧ vals.length = k.toNat ∧
      ∀ i, i < k.toNat →
        ∃ j v, idx[i]? = some j ∧ j < probs.length ∧ vals[i]? = some v ∧
          probs[j]? = some v := by
  have hlen : (drain k.toNat (pushFrom 0 probs [])).length = k.toNat :=
    drain_length _ _ (by rw [pushFrom_length]; simp; omega)
  refine ⟨_, _, get_topk_eq probs out_indices out_values k h0 hk, ?_, ?_, ?_⟩
  · rw [List.length_map, hlen]
  · rw [List.length_map, hlen]
  · intro i hi
    have hi2 : i < (drain k.toNat (pushFrom 0 probs [])).length := by omega
    have hmem := List.getElem_mem hi2
    have hp := (mem_fill probs _).mp (drain_subset _ _ _ hmem)
    refine ⟨((drain k.toNat (pushFrom 0 probs []))[i]).2,
      ((drain k.toNat (pushFrom 0 probs []))[i]).1, ?_, ?_, ?_, hp⟩
    · simp [List.getElem?_eq_getElem hi2]
    · by_contra hc
      rw [List.getElem?_eq_none (by omega)] at hp
      simp at hp
    · simp [List.getElem?_eq_getElem hi2]

/-- Witness for C10: the scores `[1, 9, 3, 9, 0]` with `k = 2` and output
vectors that already hold other data. -/
theorem get_topk_lengths_and_positions_witness :
    ∃ idx vals, get_topk ([1, 9, 3, 9, 0] : List Int) [7, 7, 7] [5] 2 = .ok (idx, vals) ∧
      idx.length = (2 : Int).toNat ∧ vals.length = (2 : Int).toNat ∧
      ∀ i, i < (2 : Int).toNat →
        ∃ j v, idx[i]? = some j ∧ j < ([1, 9, 3, 9, 0] : List Int).length ∧
          vals[i]? = some v ∧ ([1, 9, 3, 9, 0] : List Int)[j]? = some v :=
  get_topk_lengths_and_positions [1, 9, 3, 9, 0] [7, 7, 7] [5] 2 (by decide) (by decide)

end TopKClaims

/-! ### Properties of the remaining functions -/

/-- C19: for a rank-1 shape `[N]` with `N` in the signed 32-bit range and every
role string whatsoever, the result is exactly `(N, 1, 1)`: the role string is
ignored, the single axis goes to width, height and channels are `1`. -/
theorem tensor_to_pixel_dims_vector (n : Int) (chmap : List Int)
    (hn : -2147483648 ≤ n ∧ n < 2147483648) :
    tensor_to_pixel_dims [n] chmap = .ok [n, 1, 1] := by
  have hi := indicesOf_rank_one n chmap
  rw [tensor_to_pixel_dims_of_nonneg [n] chmap (by simp [hi]) (by simp [hi])
    (by simp [hi]), hi]
  simp [readSize, toInt32_of_range n hn]

/-- Witness for C19: the shape `[7]` with the role string "/x", which holds
no digit at all. -/
theorem tensor_to_pixel_dims_vector_witness :
    tensor_to_pixel_dims [7] [47, 120] = .ok [7, 1, 1] :=
  tensor_to_pixel_dims_vector 7 [47, 120] (by decide)

theorem guardedAt_eq (tensorshape : List Int) (i : Nat) :
    guardedAt tensorshape (i : Int) = .ok (literalSize tensorshape i) := by
  unfold guardedAt vectorAt literalSize
  by_cases h : i < tensorshape.length
  · have h2 : (i : Int) < (tensorshape.length : Int) := by omega
    simp [h, h2]
  · have h2 : ¬ (i : Int) < (tensorshape.length : Int) := by omega
    simp [h, h2]

/-- C20: for every shape list `s` and flag `b`, with `o = 1` if `b` and `o = 0`
otherwise, `get_imagedims_for_tensorshape s b` returns `(w, h, c)` in that order
with `h = s[o]`, `w = s[o+1]`, `c = s[o+2]`, each replaced by `1` when its index
is `≥ length s`; no read is out of range, and a full `[batch, H, W, C]` shape
with `b = true` gives `(W, H, C)`. -/
theorem get_imagedims_for_tensorshape_spec :
    (∀ (s : List Int) (b : Bool),
      get_imagedims_for_tensorshape s b =
        .ok [literalSize s ((if b then 1 else 0) + 1), literalSize s (if b then 1 else 0),
             literalSize s ((if b then 1 else 0) + 2)]) ∧
    (∀ n h w c : Int, get_imagedims_for_tensorshape [n, h, w, c] true = .ok [w, h, c]) := by
  have key : ∀ (s : List Int) (b : Bool),
      get_imagedims_for_tensorshape s b =
        .ok [literalSize s ((if b then 1 else 0) + 1), literalSize s (if b then 1 else 0),
             literalSize s ((if b then 1 else 0) + 2)] := by
    intro s b
    cases b
    · have h0 := guardedAt_eq s 0
      have h1 := guardedAt_eq s 1
      have h2 := guardedAt_eq s 2
      simp only [Nat.cast_zero, Nat.cast_one, Nat.cast_ofNat] at h0 h1 h2
      simp only [get_imagedims_for_tensorshape, Bool.false_eq_true, if_false, h0, h1, h2]
      rfl
    · have h1 := guardedAt_eq s 1
      have h2 := guardedAt_eq s 2
      have h3 := guardedAt_eq s 3
      simp only [Nat.cast_one, Nat.cast_ofNat] at h1 h2 h3
      simp only [get_imagedims_for_tensorshape, if_true, h1, h2, h3]
      rfl
  refine ⟨key, ?_⟩
  intro n h w c
  rw [key]
  simp [literalSize]

theorem padLabels_eq_of (m : Nat) : ∀ result : List String,
    (16 - result.length % 16) % 16 = m →
    padLabels result = result ++ List.replicate m "" := by
  induction m using Nat.strong_induction_on with
  | _ m ih =>
    intro result hm
    rw [padLabels]
    by_cases hc : result.length % 16 ≠ 0
    · rw [if_pos hc]
      have hlen : (result ++ [""]).length = result.length + 1 := by simp
      have hm2 : (16 - (result ++ [""]).length % 16) % 16 + 1 = m := by
        rw [hlen]; omega
      rw [ih _ (by omega) (result ++ [""]) rfl, ← hm2, List.replicate_succ]
      simp
    · rw [if_neg hc]
      have : m = 0 := by omega
      rw [this]
      simp

theorem padLabels_eq (result : List String) :
    padLabels result = result ++ List.replicate ((16 - result.length % 16) % 16) "" :=
  padLabels_eq_of _ result rfl

theorem pushLines_eq (lines result : List String) :
    pushLines lines result = result ++ lines := by
  unfold pushLines
  induction lines generalizing result with
  | nil => simp
  | cons l ls ih => simp [List.foldl, ih]

/-- C14: for every readable label file with lines `l_0 .. l_(n-1)`,
`read_labels_file` returns `true` and sets `result` to those `n` lines in order
followed only by empty strings, of length the smallest multiple of 16 that is
`≥ n`, whatever `result` held before the call. -/
theorem read_labels_file_readable (lines result : List String) :
    read_labels_file (some lines) result =
      (true, lines ++ List.replicate ((lines.length + 15) / 16 * 16 - lines.length) "") ∧
    (read_labels_file (some lines) result).2.length = (lines.length + 15) / 16 * 16 ∧
    16 ∣ (lines.length + 15) / 16 * 16 ∧
    lines.length ≤ (lines.length + 15) / 16 * 16 ∧
    ∀ m, 16 ∣ m → lines.length ≤ m → (lines.length + 15) / 16 * 16 ≤ m := by
  have hpad : (16 - lines.length % 16) % 16 = (lines.length + 15) / 16 * 16 - lines.length := by
    omega
  have he : read_labels_file (some lines) result =
      (true, lines ++ List.replicate ((lines.length + 15) / 16 * 16 - lines.length) "") := by
    simp only [read_labels_file, pushLines_eq, List.nil_append, padLabels_eq, hpad]
  refine ⟨he, ?_, Dvd.intro_left _ rfl, by omega, ?_⟩
  · rw [he]
    simp only [List.length_append, List.length_replicate]
    omega
  · rintro m ⟨c, rfl⟩ hle
    omega

/-- C15: when the label file cannot be opened, `read_labels_file` returns
`false` and leaves the caller's `result` exactly as it was. -/
theorem read_labels_file_missing (result : List String) :
    read_labels_file none result = (false, result) := rfl

/-- C16: `log_error` raises exactly when the status is not ok: an ok status is
returned unchanged, and a status that is not ok raises a runtime error whose
message is the caller's message, then " | ", then the text of the status. -/
theorem log_error_spec (status : Status) (msg : String) :
    (status.ok = true → log_error status msg = .ok status) ∧
    (status.ok = false → log_error status msg = .error (msg ++ " | " ++ status.text)) ∧
    ((∃ e, log_error status msg = .error e) ↔ status.ok = false) := by
  cases hs : status.ok <;> simp [log_error, hs]

/-- Witness for C16: a status that is not ok, with text "Not found". -/
theorem log_error_spec_witness :
    log_error ⟨false, "Not found"⟩ "Error loading graph" =
      .error ("Error loading graph" ++ " | " ++ "Not found") :=
  (log_error_spec ⟨false, "Not found"⟩ "Error loading graph").2.1 rfl

/-- C17 (the code at the failing input): when reading the graph fails,
`load_graph_def` does not return the null handle: `log_error` raises, so the
`return nullptr` after it is never reached, and the call of
`create_session_with_graph` on the path raises as well. -/
theorem load_graph_def_failure_raises :
    load_graph_def failingRuntime "graph.pb" =
      .error "Error loading graph data/graph.pb | Not found: no such file" ∧
    load_graph_def failingRuntime "graph.pb" ≠ .ok none ∧
    create_session_with_graph_path failingRuntime "graph.pb" "" =
      .error "Error loading graph data/graph.pb | Not found: no such file" ∧
    create_session_with_graph_path failingRuntime "graph.pb" "" ≠ .ok none := by
  decide

/-! ### Further facts about the queue and the selection loop -/

theorem pushFrom_eq {α : Type} (i : Nat) (ps : List α) (q : List (α × Nat)) :
    pushFrom i ps q = (List.zip ps (List.range' i ps.length)).reverse ++ q := by
  induction ps generalizing i q with
  | nil => simp [pushFrom]
  | cons p ps ih =>
    simp only [pushFrom, push, ih, List.length_cons, List.range'_succ, List.zip_cons_cons,
      List.reverse_cons, List.append_assoc, List.singleton_append]

theorem fill_perm {α : Type} (probs : List α) :
    (pushFrom 0 probs []).Perm (List.zip probs (List.range probs.length)) := by
  rw [pushFrom_eq, List.append_nil, List.range_eq_range']
  exact List.reverse_perm _

theorem perm_cons_erase_lawful {β : Type} [BEq β] [LawfulBEq β] {a : β} {l : List β}
    (h : a ∈ l) : l.Perm (a :: l.erase a) := by
  induction l with
  | nil => simp at h
  | cons b l ih =>
    by_cases hb : b = a
    · subst hb
      simp
    · have hne : ¬ (b == a) = true := by simpa using hb
      have ha : a ∈ l := by
        rcases List.mem_cons.mp h with h | h
        · exact absurd h.symm hb
        · exact h
      rw [List.erase_cons_tail hne]
      exact (List.Perm.cons b (ih ha)).trans (List.Perm.swap a b _)

section TopKMore

variable {α : Type} [LinearOrder α]

theorem drain_sorted_lex (m : Nat) (q : List (α × Nat)) :
    List.Pairwise (fun a b => toLex a ≥ toLex b) (drain m q) := by
  induction m generalizing q with
  | zero => simp [drain]
  | succ m ih =>
    cases ht : top q with
    | none => simp [drain, ht]
    | some t =>
      simp only [drain, ht]
      refine List.Pairwise.cons ?_ (ih (pop q))
      intro x hx
      exact top_ge q t ht x (pop_subset q x (drain_subset m (pop q) x hx))

theorem drain_perm (m : Nat) (q : List (α × Nat)) (h : m = q.length) :
    (drain m q).Perm q := by
  induction m generalizing q with
  | zero =>
    have : q = [] := List.length_eq_zero.mp h.symm
    subst this
    simp [drain]
  | succ m ih =>
    obtain ⟨t, ht⟩ := top_isSome q (by omega)
    have hp := pop_length q t ht
    have hm := top_mem q t ht
    simp only [drain, ht]
    have h1 : (drain m (pop q)).Perm (pop q) := ih (pop q) (by omega)
    have h2 : pop q = q.erase t := by simp only [pop, ht]
    have h3 : (t :: pop q).Perm q := by
      rw [h2]
      exact (perm_cons_erase_lawful hm).symm
    exact (List.Perm.cons t h1).trans h3

theorem drain_take (m k : Nat) (q : List (α × Nat)) (h : k ≤ m) :
    (drain m q).take k = drain k q := by
  induction k generalizing m q with
  | zero => simp [drain]
  | succ k ih =>
    cases m with
    | zero => omega
    | succ m =>
      cases ht : top q with
      | none => simp [drain, ht]
      | some t =>
        simp only [drain, ht, List.take_succ_cons]
        rw [ih m (pop q) (by omega)]

end TopKMore

theorem fill_indices_perm {α : Type} (probs : List α) :
    ((pushFrom 0 probs []).map Prod.snd).Perm (List.range probs.length) := by
  have h := (fill_perm probs).map Prod.snd
  rwa [List.map_snd_zip _ _ (by simp)] at h

theorem fill_values_perm {α : Type} (probs : List α) :
    ((pushFrom 0 probs []).map Prod.fst).Perm probs := by
  have h := (fill_perm probs).map Prod.fst
  rwa [List.map_fst_zip _ _ (by simp)] at h

section TopKSelection

variable {α : Type} [LinearOrder α]

theorem drain_fill_perm (probs : List α) :
    (drain probs.length (pushFrom 0 probs [])).Perm (pushFrom 0 probs []) :=
  drain_perm _ _ (by rw [pushFrom_length]; simp)

theorem drain_fill_indices_nodup (probs : List α) (k : Nat) (hk : k ≤ probs.length) :
    ((drain k (pushFrom 0 probs [])).map Prod.snd).Nodup := by
  have hfull : ((drain probs.length (pushFrom 0 probs [])).map Prod.snd).Nodup :=
    (((drain_fill_perm probs).map Prod.snd).trans (fill_indices_perm probs)).nodup_iff.mpr
      (List.nodup_range _)
  rw [← drain_take probs.length k _ hk, List.map_take]
  exact hfull.sublist (List.take_sublist _ _)

theorem drain_fill_link (probs : List α) (k i : Nat)
    (hi : i < (drain k (pushFrom 0 probs [])).length) :
    ∃ j v, ((drain k (pushFrom 0 probs [])).map Prod.snd)[i]? = some j ∧
      ((drain k (pushFrom 0 probs [])).map Prod.fst)[i]? = some v ∧
      probs[j]? = some v := by
  have hp := (mem_fill probs _).mp (drain_subset _ _ _ (List.getElem_mem hi))
  exact ⟨((drain k (pushFrom 0 probs []))[i]).2, ((drain k (pushFrom 0 probs []))[i]).1,
    by simp [List.getElem?_eq_getElem hi], by simp [List.getElem?_eq_getElem hi], hp⟩

end TopKSelection

section TopKClaimsMore

variable {α : Type} [LinearOrder α] [Zero α]

/-- C11: for every score sequence and every `k` with `0 ≤ k ≤ length(scores)`,
the indices returned by `get_topk` are pairwise distinct, also when several
positions hold the same score. -/
theorem get_topk_indices_distinct (probs : List α) (out_indices : List Nat)
    (out_values : List α) (k : Int) (h0 : 0 ≤ k) (hk : k ≤ probs.length) :
    ∃ idx vals, get_topk probs out_indices out_values k = .ok (idx, vals) ∧
      idx.length = k.toNat ∧ idx.Nodup := by
  refine ⟨_, _, get_topk_eq probs out_indices out_values k h0 hk, ?_,
    drain_fill_indices_nodup probs k.toNat (by omega)⟩
  rw [List.length_map, drain_length _ _ (by rw [pushFrom_length]; simp; omega)]

/-- Witness for C11: the scores `[1, 9, 3, 9, 0]`, in which `9` occurs twice,
with `k = 2`. -/
theorem get_topk_indices_distinct_witness :
    ∃ idx vals, get_topk ([1, 9, 3, 9, 0] : List Int) [] [] 2 = .ok (idx, vals) ∧
      idx.length = (2 : Int).toNat ∧ idx.Nodup :=
  get_topk_indices_distinct [1, 9, 3, 9, 0] [] [] 2 (by decide) (by decide)

/-- C9 (amended): for every score sequence whose scores are totally ordered (no
NaN) and every `k` with `0 ≤ k ≤ length(scores)`, `get_topk` selects the `k`
largest: it returns `k` pairwise distinct positions, each with its own score,
and the score at every position that is not among the returned indices is `≤`
every returned value. -/
theorem get_topk_selects_largest (probs : List α) (out_indices : List Nat)
    (out_values : List α) (k : Int) (h0 : 0 ≤ k) (hk : k ≤ probs.length) :
    ∃ idx vals, get_topk probs out_indices out_values k = .ok (idx, vals) ∧
      idx.length = k.toNat ∧ vals.length = k.toNat ∧ idx.Nodup ∧
      (∀ i, i < k.toNat →
        ∃ j v, idx[i]? = some j ∧ vals[i]? = some v ∧ probs[j]? = some v) ∧
      (∀ j p, probs[j]? = some p → j ∉ idx → ∀ v ∈ vals, p ≤ v) := by
  have hlen : (drain k.toNat (pushFrom 0 probs [])).length = k.toNat :=
    drain_length _ _ (by rw [pushFrom_length]; simp; omega)
  refine ⟨_, _, get_topk_eq probs out_indices out_values k h0 hk, ?_, ?_,
    drain_fill_indices_nodup probs k.toNat (by omega), ?_, ?_⟩
  · rw [List.length_map, hlen]
  · rw [List.length_map, hlen]
  · intro i hi
    exact drain_fill_link probs k.toNat i (by omega)
  · intro j p hj hn v hv
    obtain ⟨t, ht, rfl⟩ := List.mem_map.mp hv
    have hmem : (p, j) ∈ pushFrom 0 probs [] := (mem_fill probs (p, j)).mpr hj
    have hnd : (p, j) ∉ drain k.toNat (pushFrom 0 probs []) := fun hc =>
      hn (List.mem_map.mpr ⟨(p, j), hc, rfl⟩)
    exact drain_dominates _ _ (p, j) hmem hnd t ht

/-- Witness for C9: the scores `[1, 9, 3, 9, 0]` with `k = 2`. -/
theorem get_topk_selects_largest_witness :
    ∃ idx vals, get_topk ([1, 9, 3, 9, 0] : List Int) [] [] 2 = .ok (idx, vals) ∧
      idx.length = (2 : Int).toNat ∧ vals.length = (2 : Int).toNat ∧ idx.Nodup ∧
      (∀ i, i < (2 : Int).toNat →
        ∃ j v, idx[i]? = some j ∧ vals[i]? = some v ∧
          ([1, 9, 3, 9, 0] : List Int)[j]? = some v) ∧
      (∀ j p, ([1, 9, 3, 9, 0] : List Int)[j]? = some p → j ∉ idx → ∀ v ∈ vals, p ≤ v) :=
  get_topk_selects_largest [1, 9, 3, 9, 0] [] [] 2 (by decide) (by decide)

/-- C9 as stated fails on a score sequence with a NaN: for the scores
`[1.0, NaN]` and `k = 1` the pair `(NaN, 1)` compares above `(1.0, 0)` (the
scores compare neither way, and the index decides), so the returned index is
`1` with value NaN; position `0` is not returned, and its score `1.0` is not
`≤` NaN. -/
theorem get_topk_selects_largest_counterexample :
    pairLess (FloatScore.num 1, 0) (FloatScore.nan, 1) = true ∧
    get_topk [FloatScore.num 1, FloatScore.nan] [] [] 1 = .ok ([1], [FloatScore.nan]) ∧
    0 ∉ [1] ∧ ¬ (FloatScore.num 1 ≤ FloatScore.nan) := by
  decide

/-- C12 (amended): for every score sequence, NaN or not, `get_topk` with `k = 0`
returns empty indices and values without error; for every score sequence whose
scores are totally ordered (no NaN), `get_topk` with `k = length(scores)`
returns values that are a permutation of the whole input in descending order,
each value being the score at the index returned with it, with indices that
are a permutation of `0 .. length-1`. -/
theorem get_topk_boundaries :
    (∀ (β : Type) [LT β] [DecidableRel (fun a b : β => a < b)] [DecidableEq β] [Zero β]
      (probs : List β) (out_indices : List Nat) (out_values : List β),
      get_topk probs out_indices out_values 0 = .ok ([], [])) ∧
    (∀ (probs : List α) (out_indices : List Nat) (out_values : List α),
      ∃ idx vals, get_topk probs out_indices out_values probs.length = .ok (idx, vals) ∧
        vals.Perm probs ∧ List.Pairwise (fun a b => b ≤ a) vals ∧
        idx.Perm (List.range probs.length) ∧
        (∀ i, i < probs.length →
          ∃ j v, idx[i]? = some j ∧ vals[i]? = some v ∧ probs[j]? = some v)) := by
  constructor
  · intro β _ _ _ _ probs out_indices out_values
    simp [get_topk, selectLoop, resize]
  · intro probs out_indices out_values
    have hlen : (drain probs.length (pushFrom 0 probs [])).length = probs.length :=
      drain_length _ _ (by rw [pushFrom_length]; simp)
    refine ⟨_, _, get_topk_eq probs out_indices out_values probs.length (by omega)
      (le_refl _), ?_, ?_, ?_, ?_⟩
    · rw [Int.toNat_ofNat]
      exact ((drain_fill_perm probs).map Prod.fst).trans (fill_values_perm probs)
    · rw [List.pairwise_map]
      exact drain_sorted _ _
    · rw [Int.toNat_ofNat]
      exact ((drain_fill_perm probs).map Prod.snd).trans (fill_indices_perm probs)
    · intro i hi
      rw [Int.toNat_ofNat]
      exact drain_fill_link probs probs.length i (by omega)

/-- Witness for C12: the scores `[1, 9, 3]` with `k = 3`, their number. -/
theorem get_topk_boundaries_witness :
    ∃ idx vals, get_topk ([1, 9, 3] : List Int) [] []
        (([1, 9, 3] : List Int).length : Int) = .ok (idx, vals) ∧
      vals.Perm [1, 9, 3] ∧ List.Pairwise (fun a b => b ≤ a) vals ∧
      idx.Perm (List.range ([1, 9, 3] : List Int).length) ∧
      (∀ i, i < ([1, 9, 3] : List Int).length →
        ∃ j v, idx[i]? = some j ∧ vals[i]? = some v ∧
          ([1, 9, 3] : List Int)[j]? = some v) :=
  (@get_topk_boundaries Int _ _).2 [1, 9, 3] [] []

/-- C12 as stated fails on a score sequence with a NaN: for the scores
`[1.0, NaN]` and `k = 2 = length` the pair `(NaN, 1)` compares above
`(1.0, 0)`, so the returned values are `[NaN, 1.0]`, which are not in
descending order: `NaN ≥ 1.0` is false. -/
theorem get_topk_boundaries_counterexample :
    pairLess (FloatScore.num 1, 0) (FloatScore.nan, 1) = true ∧
    get_topk [FloatScore.num 1, FloatScore.nan] [] [] 2 =
      .ok ([1, 0], [FloatScore.nan, FloatScore.num 1]) ∧
    ¬ List.Pairwise (fun a b : FloatScore => b ≤ a) [FloatScore.nan, FloatScore.num 1] := by
  decide

end TopKClaimsMore

section TopKRefinement

variable {α : Type} [LinearOrder α]

theorem drain_fill_eq_sort (probs : List α) :
    (drain probs.length (pushFrom 0 probs [])).map toLex =
      List.insertionSort (fun a b : Lex (α × Nat) => a ≥ b)
        ((List.zip probs (List.range probs.length)).map toLex) := by
  apply List.eq_of_perm_of_sorted (r := fun a b : Lex (α × Nat) => a ≥ b)
  · exact (((drain_fill_perm probs).trans (fill_perm probs)).map toLex).trans
      (List.perm_insertionSort _ _).symm
  · exact List.pairwise_map.mpr (drain_sorted_lex _ _)
  · exact List.sorted_insertionSort _ _

theorem drain_fill_indices_eq (probs : List α) (k : Nat) (hk : k ≤ probs.length) :
    (drain k (pushFrom 0 probs [])).map Prod.snd = topkBySorting probs k := by
  unfold topkBySorting
  rw [← drain_fill_eq_sort, ← List.map_take, List.map_map, drain_take _ k _ hk]
  rfl

theorem drain_fill_ties (probs : List α) (k : Nat) (hk : k ≤ probs.length) :
    List.Pairwise (fun a b => probs[a]? = probs[b]? → b < a)
      ((drain k (pushFrom 0 probs [])).map Prod.snd) := by
  have hnd := drain_fill_indices_nodup probs k hk
  rw [List.Nodup, List.pairwise_map] at hnd
  rw [List.pairwise_map]
  refine List.Pairwise.imp_of_mem ?_ ((drain_sorted_lex k (pushFrom 0 probs [])).and hnd)
  intro a b ha hb hab heq
  have hpa := (mem_fill probs a).mp (drain_subset _ _ _ ha)
  have hpb := (mem_fill probs b).mp (drain_subset _ _ _ hb)
  rw [hpa, hpb, Option.some.injEq] at heq
  obtain ⟨hle, hne⟩ := hab
  have hle2 : toLex b ≤ toLex a := hle
  rw [Prod.Lex.le_iff] at hle2
  rcases hle2 with h | ⟨_, h⟩
  · rw [heq] at h
    exact absurd h (lt_irrefl _)
  · exact lt_of_le_of_ne h (fun hc => hne hc.symm)

end TopKRefinement

section TopKRefinementClaim

variable {α : Type} [LinearOrder α] [Zero α]

/-- C18: for every score sequence and every `k` with `0 ≤ k ≤ length(scores)`,
the indices returned by `get_topk` are the first `k` positions of
`0 .. length-1` sorted by the pair (score, position) in descending
lexicographic order; hence among equal scores the larger position comes first,
and the result depends on the scores and `k` alone, not on what the output
vectors held. -/
theorem get_topk_refines_sorting (probs : List α) (out_indices : List Nat)
    (out_values : List α) (k : Int) (h0 : 0 ≤ k) (hk : k ≤ probs.length) :
    ∃ idx vals, get_topk probs out_indices out_values k = .ok (idx, vals) ∧
      idx = topkBySorting probs k.toNat ∧
      List.Pairwise (fun a b => probs[a]? = probs[b]? → b < a) idx :=
  ⟨_, _, get_topk_eq probs out_indices out_values k h0 hk,
    drain_fill_indices_eq probs k.toNat (by omega),
    drain_fill_ties probs k.toNat (by omega)⟩

/-- Witness for C18: the scores `[1, 9, 3, 9, 0]` with `k = 2`, for which the
indices are exactly `[3, 1]`. -/
theorem get_topk_refines_sorting_witness :
    (∃ idx vals, get_topk ([1, 9, 3, 9, 0] : List Int) [4, 4, 4] [8] 2 = .ok (idx, vals) ∧
      idx = topkBySorting ([1, 9, 3, 9, 0] : List Int) (2 : Int).toNat ∧
      List.Pairwise (fun a b => ([1, 9, 3, 9, 0] : List Int)[a]? =
        ([1, 9, 3, 9, 0] : List Int)[b]? → b < a) idx) ∧
    get_topk ([1, 9, 3, 9, 0] : List Int) [4, 4, 4] [8] 2 = .ok ([3, 1], [9, 9]) ∧
    topkBySorting ([1, 9, 3, 9, 0] : List Int) 2 = [3, 1] :=
  ⟨get_topk_refines_sorting [1, 9, 3, 9, 0] [4, 4, 4] [8] 2 (by decide) (by decide),
    by decide, by decide⟩

end TopKRefinementClaim

end msa.tf
